import Mathlib

/-!
Verification of the `mrinversion` linear-model core
(`mrinversion/linear_model/fista_lasso.py`): the `LassoFista` and
`LassoFistaCV` fit orchestrators and the `test_train_set` fold splitter.

Numbers are modelled as rationals.  The external numerical routines that the
orchestrators call (`np.sqrt`, the largest singular value produced by
`np.linalg.svd`, and the compiled FISTA solver `fista.fista`) are abstracted
as function parameters bundled in `Extern`; the compiled cross-validation
routine `fista_cv.fista`, whose source is not part of the repository tree
under verification, is modelled from the spec (see `fistaCVMap`).

Python exceptions are modelled with `Except PyErr`.  The source file
contains no `raise` statement and no input validation; the only operations
in it that can raise are `ndarray.argmin` on an empty array (a
`ValueError`), attribute access on an attribute never assigned (an
`AttributeError`), and the Python division `index.size / folds` inside
`test_train_set` when the fold count is zero (a `ZeroDivisionError`), and
the embedding reflects exactly those error paths.
-/

namespace Mrinversion

/-- Dot product of two rows (`np.dot` inner loop). -/
def dotl (u v : List ℚ) : ℚ := (u.zipWith (· * ·) v).sum

/-- Length of row 0 of a 2-D array: its second shape component. -/
def row0len (A : List (List ℚ)) : ℕ := (A.getD 0 []).length

/-- Column `j` of a list-of-rows matrix. -/
def colOf (B : List (List ℚ)) (j : ℕ) : List ℚ := B.map (fun br => br.getD j 0)

/-- Matrix product of two list-of-rows matrices: `np.dot(A, B)` for 2-D
arguments: entry (i, j) is the dot product of row i of `A` with column j of
`B`. -/
def matMul (A B : List (List ℚ)) : List (List ℚ) :=
  A.map (fun r => (List.range (row0len B)).map (fun j => dotl r (colOf B j)))

/-- Elementwise division of a matrix by a scalar: `A / c`. -/
def matScalarDiv (A : List (List ℚ)) (c : ℚ) : List (List ℚ) :=
  A.map (fun r => r.map (fun x => x / c))

/-- Elementwise multiplication of a matrix by a scalar: `A *= c`. -/
def matScalarMul (A : List (List ℚ)) (c : ℚ) : List (List ℚ) :=
  A.map (fun r => r.map (fun x => x * c))

/-- Elementwise difference of two same-shape matrices. -/
def matSub (A B : List (List ℚ)) : List (List ℚ) :=
  A.zipWith (fun r1 r2 => r1.zipWith (· - ·) r2) B

/-- `np.sum(np.abs(A) ** 2)`: the squared Frobenius norm of the signal. -/
def frobSq (A : List (List ℚ)) : ℚ :=
  (A.map (fun r => (r.map (fun x => |x| ^ 2)).sum)).sum

/-- A numpy `ndarray` of rank 0, 1 or 2 (the ranks the orchestrators meet). -/
inductive NDArr where
  | zero (v : ℚ)
  | one (v : List ℚ)
  | two (v : List (List ℚ))
deriving DecidableEq

/-- `s_[:, np.newaxis] if s_.ndim == 1 else s_`: promote the input signal to
a 2-D column-major matrix of shape (m, c). -/
def to2d : NDArr → List (List ℚ)
  | .zero v => [[v]]
  | .one v => v.map (fun x => [x])
  | .two v => v

/-- `np.squeeze`: drop every axis of size 1. -/
def npSqueeze : NDArr → NDArr
  | .zero v => .zero v
  | .one v => if v.length = 1 then .zero (v.getD 0 0) else .one v
  | .two v =>
    if v.length = 1 ∧ row0len v = 1 then .zero ((v.getD 0 []).getD 0 0)
    else if v.length = 1 then .one (v.getD 0 [])
    else if row0len v = 1 then .one (v.map (fun r => r.getD 0 0))
    else .two v

/-- Numpy broadcast combination of two axis lengths. -/
def bcDim (a b : ℕ) : Option ℕ :=
  if a = b then some a else if a = 1 then some b else if b = 1 then some a else none

/-- Broadcast subtraction of two 1-D arrays. -/
def subBC1 (u v : List ℚ) : Option (List ℚ) :=
  if u.length = v.length then some (u.zipWith (· - ·) v)
  else if u.length = 1 then some (v.map (fun y => u.getD 0 0 - y))
  else if v.length = 1 then some (u.map (fun x => x - v.getD 0 0))
  else none

/-- Broadcast subtraction of two 2-D arrays (numpy broadcasting rules). -/
def subBC2 (A B : List (List ℚ)) : Option (List (List ℚ)) :=
  match bcDim A.length B.length, bcDim (row0len A) (row0len B) with
  | some a, some b =>
    some ((List.range a).map (fun i => (List.range b).map (fun j =>
      (A.getD (if A.length = 1 then 0 else i) []).getD
          (if row0len A = 1 then 0 else j) 0 -
      (B.getD (if B.length = 1 then 0 else i) []).getD
          (if row0len B = 1 then 0 else j) 0)))
  | _, _ => none

/-- Numpy subtraction `x - y` with broadcasting; `none` models the
`ValueError` raised on incompatible shapes.  A 1-D operand against a 2-D one
is promoted to shape (1, len) as numpy does. -/
def npSub : NDArr → NDArr → Option NDArr
  | .zero x, .zero y => some (.zero (x - y))
  | .zero x, .one v => some (.one (v.map (fun y => x - y)))
  | .one v, .zero y => some (.one (v.map (fun x => x - y)))
  | .zero x, .two B => some (.two (B.map (fun r => r.map (fun y => x - y))))
  | .two A, .zero y => some (.two (A.map (fun r => r.map (fun x => x - y))))
  | .one u, .one v => (subBC1 u v).map .one
  | .two A, .one v => (subBC2 A [v]).map .two
  | .one u, .two B => (subBC2 [u] B).map .two
  | .two A, .two B => (subBC2 A B).map .two

/-- The Python exceptions the embedded code can raise. -/
inductive PyErr where
  | attributeError (attr : String)
  | valueError
  | zeroDivisionError
deriving DecidableEq

/-- External numerical routines used by the orchestrators.
`sqrtFn` stands for `np.sqrt`, `svdMax` for the largest singular value
returned by `np.linalg.svd`, and `fistaSolve` for the compiled FISTA core
solver `fista.fista` (arguments: matrix, signal, lambda, maxiter,
nonnegative, linv, tol; returns the solution written into `f_k`). -/
structure Extern where
  sqrtFn : ℚ → ℚ
  svdMax : List (List ℚ) → ℚ
  fistaSolve : List (List ℚ) → List (List ℚ) → ℚ → ℕ → Bool → ℚ → ℚ → List (List ℚ)

/-- The state `LassoFista.fit` leaves behind: `self.scale` and `self.f`. -/
structure FitResult where
  scale : ℚ
  f : List (List ℚ)
deriving DecidableEq

/-- `LassoFista.fit` (numpy-array path): normalize the signal by its overall
L2 norm, compute the Lipschitz constant from the largest singular value,
invoke the FISTA solver on the normalized signal, and rescale the solution
(`self.f *= self.scale`). -/
def lassoFista_run (env : Extern) (lambda1 : ℚ) (maxIterations : ℕ) (tolerance : ℚ)
    (positive : Bool) (K : List (List ℚ)) (s : NDArr) : FitResult :=
  let s2 := to2d s
  let scale := env.sqrtFn (frobSq s2)
  let sN := matScalarDiv s2 scale
  let lipszit := (env.svdMax K) ^ 2
  let fSol := env.fistaSolve K sN lambda1 maxIterations positive (1 / lipszit) tolerance
  { scale := scale, f := matScalarMul fSol scale }

/-- `LassoFista.fit` with its (empty) exception behavior: the source method
contains no validation and no raise; every numpy operation in it returns
normally (division by a zero scale or a zero Lipschitz constant yields
inf/nan with a warning, not an exception), so every input reaches `.ok`. -/
def lassoFista_fit (env : Extern) (lambda1 : ℚ) (maxIterations : ℕ) (tolerance : ℚ)
    (positive : Bool) (K : List (List ℚ)) (s : NDArr) : Except PyErr FitResult :=
  .ok (lassoFista_run env lambda1 maxIterations tolerance positive K s)

/-- `LassoFista.predict` applied to a fitted solution `f`: `np.dot(K, f)`. -/
def predictArr (K f : List (List ℚ)) : List (List ℚ) := matMul K f

/-- `LassoFista.residuals` applied to a fitted solution `f`:
`s_ - np.squeeze(np.dot(K, f))`, with numpy broadcasting. -/
def residualsArr (K f : List (List ℚ)) (s : NDArr) : Option NDArr :=
  npSub s (npSqueeze (NDArr.two (matMul K f)))

/-- A `LassoFista` instance: `self.f` is absent until `fit` assigns it. -/
structure LFState where
  f : Option (List (List ℚ))
deriving DecidableEq

/-- `LassoFista.__init__` assigns no `self.f`. -/
def lassoFistaNew : LFState := { f := none }

/-- `LassoFista.predict` on an instance: accessing `self.f` on an unfitted
instance raises `AttributeError`. -/
def predictSt (st : LFState) (K : List (List ℚ)) : Except PyErr (List (List ℚ)) :=
  match st.f with
  | none => .error (.attributeError "f")
  | some f => .ok (matMul K f)

/-- `LassoFista.residuals` on an instance: it calls `self.predict(K)`, which
raises `AttributeError` on an unfitted instance. -/
def residualsSt (st : LFState) (K : List (List ℚ)) (s : NDArr) : Except PyErr NDArr :=
  match st.f with
  | none => .error (.attributeError "f")
  | some f =>
    match npSub s (npSqueeze (NDArr.two (matMul K f))) with
    | some r => .ok r
    | none => .error .valueError

/-- A `LassoFistaCV` instance: `self.opt` is absent until `fit` assigns it. -/
structure LFCVState where
  opt : Option LFState
deriving DecidableEq

/-- `LassoFistaCV.__init__` assigns `self.f = None` but no `self.opt`. -/
def lassoFistaCVNew : LFCVState := { opt := none }

/-- `LassoFistaCV.predict`: delegates to `self.opt.predict`; accessing
`self.opt` on an unfitted instance raises `AttributeError`. -/
def cvPredictSt (st : LFCVState) (K : List (List ℚ)) : Except PyErr (List (List ℚ)) :=
  match st.opt with
  | none => .error (.attributeError "opt")
  | some o => predictSt o K

/-- `LassoFistaCV.residuals`: delegates to `self.opt.residuals`. -/
def cvResidualsSt (st : LFCVState) (K : List (List ℚ)) (s : NDArr) : Except PyErr NDArr :=
  match st.opt with
  | none => .error (.attributeError "opt")
  | some o => residualsSt o K s

/-- Number of elements of the Python slice `arange(m)[i : None : k]`,
that is of the arithmetic progression i, i+k, i+2k, ... below m. -/
def sliceCount (m i k : ℕ) : ℕ := (m - i + (k - 1)) / k

/-- The test indices of fold `i` in `test_train_set`.
Non-randomized branch: `index[i:None:folds]` on `index = arange(m)` (the
arithmetic progression starting at `i` with stride `folds`), truncated to
`test_size + 1` elements when `i < m % folds` and to `test_size` otherwise.
Randomized branch: a contiguous slice of the shuffled index array `idx`. -/
def foldTestIndex (m k : ℕ) (random : Bool) (idx : List ℕ) (i : ℕ) : List ℕ :=
  let test_size := m / k
  let r := m % k
  if random then
    if i < r then (idx.drop (i * (test_size + 1))).take (test_size + 1)
    else (idx.drop (i * test_size + r)).take test_size
  else
    if i < r then (List.range' i (sliceCount m i k) k).take (test_size + 1)
    else (List.range' i (sliceCount m i k) k).take test_size

/-- The train indices of fold `i` in `test_train_set`.
Non-randomized branch: `np.delete(index, test_index)` with
`index = arange(m)`, where positions coincide with values, i.e. the indices
below `m` that are not test indices, in order.  Randomized branch:
`np.delete(index, set_index)` deletes the contiguous position range
`[lo, hi)` from the shuffled array `idx`. -/
def foldTrainIndex (m k : ℕ) (random : Bool) (idx : List ℕ) (i : ℕ) : List ℕ :=
  let test_size := m / k
  let r := m % k
  if random then
    if i < r then
      idx.take (i * (test_size + 1)) ++ idx.drop ((i + 1) * (test_size + 1))
    else
      idx.take (i * test_size + r) ++ idx.drop ((i + 1) * test_size + r)
  else
    (List.range m).filter (fun x => decide (x ∉ foldTestIndex m k false idx i))

/-- A rank-3 numpy array of rationals, as a shape plus a total entry
function; entries outside the allocated shape read as 0. -/
structure Tensor3 where
  d0 : ℕ
  d1 : ℕ
  d2 : ℕ
  entry : ℕ → ℕ → ℕ → ℚ

/-- The tuple returned by `test_train_set`. -/
structure TTSOut where
  k_train : Tensor3
  s_train : Tensor3
  k_test : Tensor3
  s_test : Tensor3
  m : ℕ

/-- Fill a fold tensor: allocated as `np.zeros((d0, d1, folds * reps))` and
then, for each trailing index `t = j * folds + i`, rows `0 ≤ a < len(ind)`
of slice `t` receive `M[ind[a]]`; all other entries stay zero. -/
def fillTensor (M : List (List ℚ)) (d0 d1 nslices : ℕ)
    (ind : ℕ → List ℕ) : Tensor3 :=
  { d0 := d0, d1 := d1, d2 := nslices,
    entry := fun a b t =>
      if a < (ind t).length ∧ a < d0 ∧ b < d1 ∧ t < nslices
      then (M.getD ((ind t).getD a 0) []).getD b 0 else 0 }

/-- `test_train_set(X, y, folds, random, repeat_folds)`.  `idxs j` is the
content of the `index` array during repeat `j`: `arange(m)` when
`random=False`, and the result of the in-place shuffle of repeat `j` when
`random=True` (an arbitrary permutation of `arange(m)`, constrained by
hypotheses in the theorems).  When `folds = 0` the source raises
`ZeroDivisionError` at `test_size = np.int(index.size / folds)`; this Lean
function is total (natural-number division), and the error path is surfaced
by `lassoFistaCV_fit`, the only caller, which guards on a zero fold count. -/
def test_train_set (X y : List (List ℚ)) (folds : ℕ) (random : Bool)
    (repeat_folds : ℕ) (idxs : ℕ → List ℕ) : TTSOut :=
  let m := X.length
  let n := row0len X
  let c := row0len y
  let test_size := m / folds
  let mrem := m % folds
  let train_size := m - test_size
  let trIdx : ℕ → List ℕ := fun t =>
    foldTrainIndex m folds random (idxs (t / folds)) (t % folds)
  let teIdx : ℕ → List ℕ := fun t =>
    foldTestIndex m folds random (idxs (t / folds)) (t % folds)
  { k_train := fillTensor X train_size n (folds * repeat_folds) trIdx,
    s_train := fillTensor y train_size c (folds * repeat_folds) trIdx,
    k_test := fillTensor X (test_size + 1) n (folds * repeat_folds) teIdx,
    s_test := fillTensor y (test_size + 1) c (folds * repeat_folds) teIdx,
    m := mrem }

/-- Extract slice `t` of a rank-3 tensor as a 2-D matrix. -/
def tensorSlice (T : Tensor3) (t : ℕ) : List (List ℚ) :=
  (List.range T.d0).map (fun a => (List.range T.d1).map (fun b => T.entry a b t))

/-- `ndarray.argmin`: index of the first occurrence of the minimum. -/
def argminIdx : List ℚ → ℕ
  | [] => 0
  | [_] => 0
  | a :: b :: t =>
    let j := argminIdx (b :: t)
    if a ≤ (b :: t).getD j 0 then 0 else j + 1

/-- Modelled from the spec: the compiled routine `fista_cv.fista`, whose
Fortran source is not part of the tree under verification.  Per the
Cross-Validation Driver contract of the spec, for every λ it fits the FISTA core solver
on each train fold, accumulates the squared prediction error on the matching
test fold, and aggregates across all folds/repeats into a single
mean-squared-error value per λ (here: the total squared prediction error
divided by the number of folds/repeats).  Zero-padded rows of the fold
tensors contribute zero prediction error. -/
def fistaCVMap (solve : List (List ℚ) → List (List ℚ) → ℚ → ℕ → Bool → ℚ → ℚ → List (List ℚ))
    (kTrain sTrain kTest sTest : Tensor3) (nslices : ℕ) (lambdas : List ℚ)
    (maxIterations : ℕ) (positive : Bool) (linv tolerance : ℚ) : List ℚ :=
  lambdas.map (fun lam =>
    let errs := (List.range nslices).map (fun t =>
      let f := solve (tensorSlice kTrain t) (tensorSlice sTrain t) lam
        maxIterations positive linv tolerance
      frobSq (matSub (tensorSlice sTest t) (matMul (tensorSlice kTest t) f)))
    errs.sum / (nslices : ℚ))

/-- The state `LassoFistaCV.fit` leaves behind: the selected hyperparameter,
the solution refitted on the full data, and the corrected CV error map. -/
structure CVFitResult where
  lambdaSel : ℚ
  f : List (List ℚ)
  cvAbs : List ℚ
deriving DecidableEq

/-- `LassoFistaCV.fit` (numpy-array path): normalize the signal, build the
fold tensors with `test_train_set`, obtain the per-λ CV error map, subtract
`sigma ** 2`, take the absolute value, select the λ at the argmin, and refit
a fresh `LassoFista` on the full `(K, s)` at the selected λ
(`self.opt.fit(K, s); self.f = self.opt.f`). -/
def lassoFistaCV_run (env : Extern) (lambdas : List ℚ) (folds maxIterations : ℕ)
    (tolerance sigma : ℚ) (positive randomize : Bool) (times : ℕ)
    (idxs : ℕ → List ℕ) (K : List (List ℚ)) (s : NDArr) : CVFitResult :=
  let s2 := to2d s
  let scale := env.sqrtFn (frobSq s2)
  let sN := matScalarDiv s2 scale
  let lipszit := (env.svdMax K) ^ 2
  let tts := test_train_set K sN folds randomize times idxs
  let cv0 := fistaCVMap env.fistaSolve tts.k_train tts.s_train tts.k_test tts.s_test
    (folds * times) lambdas maxIterations positive (1 / lipszit) tolerance
  let cvAbs := cv0.map (fun e => |e - sigma ^ 2|)
  let lam := lambdas.getD (argminIdx cvAbs) 0
  let opt := lassoFista_run env lam maxIterations tolerance positive K s
  { lambdaSel := lam, f := opt.f, cvAbs := cvAbs }

/-- `LassoFistaCV.fit` with its exception behavior: the method performs no
input validation; the raising operations are the Python division
`index.size / folds` at the top of `test_train_set`, which raises
`ZeroDivisionError` when the fold count is 0 (after the SVD, before the
cross-validation computation), and `self.cv_map.argmin()`, which raises
`ValueError` when the λ grid (hence the CV map) is empty, after the SVD,
fold splitting and cross-validation computation have already run. -/
def lassoFistaCV_fit (env : Extern) (lambdas : List ℚ) (folds maxIterations : ℕ)
    (tolerance sigma : ℚ) (positive randomize : Bool) (times : ℕ)
    (idxs : ℕ → List ℕ) (K : List (List ℚ)) (s : NDArr) : Except PyErr CVFitResult :=
  if folds = 0 then .error .zeroDivisionError
  else if lambdas = [] then .error .valueError
  else .ok (lassoFistaCV_run env lambdas folds maxIterations tolerance sigma
    positive randomize times idxs K s)

/-- A concrete instantiation of the external routines, used to evaluate the
embedding on explicit inputs. -/
def envId : Extern :=
  { sqrtFn := fun x => x, svdMax := fun _ => 1, fistaSolve := fun _ s _ _ _ _ _ => s }

/-- A concrete instantiation whose `svdMax` is zero on every matrix (the
exact value of the largest singular value of a zero matrix), and whose
solver returns the received step size, making the passed `1 / L` visible. -/
def envZero : Extern :=
  { sqrtFn := fun x => x, svdMax := fun _ => 0,
    fistaSolve := fun _ _ _ _ _ linv _ => [[linv]] }

/-- Concrete 3×1 kernel/signal used to evaluate the fold tensors. -/
def Xw : List (List ℚ) := [[1], [2], [3]]

/-- Concrete 4×1 kernel/signal used to evaluate the fold tensors. -/
def Xw4 : List (List ℚ) := [[1], [2], [3], [4]]

/-- Concrete index arrays (identity permutations) for 3 and 4 samples and the
2-sample case. -/
def idxsW : ℕ → List ℕ := fun _ => [0, 1, 2]

/-- Identity permutation of 4 samples, per repeat. -/
def idxsW4 : ℕ → List ℕ := fun _ => [0, 1, 2, 3]

/-- Identity permutation of 2 samples, per repeat. -/
def idxsW2 : ℕ → List ℕ := fun _ => [0, 1]

/-! ### Helper lemmas -/

theorem argminIdx_lt_length (l : List ℚ) (h : l ≠ []) : argminIdx l < l.length := by
  induction l with
  | nil => exact absurd rfl h
  | cons a t ih =>
    cases t with
    | nil => simp [argminIdx]
    | cons b t2 =>
      simp only [argminIdx]
      split
      · simp
      · have := ih (List.cons_ne_nil b t2)
        simpa using Nat.succ_lt_succ this

theorem argminIdx_min (l : List ℚ) : ∀ j, j < l.length →
    l.getD (argminIdx l) 0 ≤ l.getD j 0 := by
  induction l with
  | nil => intro j hj; simp at hj
  | cons a t ih =>
    cases t with
    | nil =>
      intro j hj
      have hj0 : j = 0 := by simpa using hj
      subst hj0
      simp [argminIdx]
    | cons b t2 =>
      intro j hj
      simp only [argminIdx]
      by_cases hc : a ≤ (b :: t2).getD (argminIdx (b :: t2)) 0
      · rw [if_pos hc]
        cases j with
        | zero => simp
        | succ j' =>
          have hj' : j' < (b :: t2).length := by simpa using Nat.lt_of_succ_lt_succ hj
          calc (a :: b :: t2).getD 0 0 = a := by simp
            _ ≤ (b :: t2).getD (argminIdx (b :: t2)) 0 := hc
            _ ≤ (b :: t2).getD j' 0 := ih j' hj'
            _ = (a :: b :: t2).getD (j' + 1) 0 := by simp
      · rw [if_neg hc]
        have hlt : (b :: t2).getD (argminIdx (b :: t2)) 0 ≤ a := le_of_lt (lt_of_not_le hc)
        cases j with
        | zero => simpa using hlt
        | succ j' =>
          have hj' : j' < (b :: t2).length := by simpa using Nat.lt_of_succ_lt_succ hj
          simpa using ih j' hj'

theorem range'_take (step : ℕ) : ∀ (n s j : ℕ),
    (List.range' s n step).take j = List.range' s (min j n) step := by
  intro n
  induction n with
  | zero => intro s j; simp
  | succ n ih =>
    intro s j
    cases j with
    | zero => simp
    | succ j' =>
      rw [List.range'_succ, List.take_succ_cons, ih (s + step) j']
      have : min (j' + 1) (n + 1) = min j' n + 1 := by omega
      rw [this, List.range'_succ]

theorem sliceCount_eq (m k i : ℕ) (hk : 0 < k) (hik : i < k) :
    sliceCount m i k = if i < m % k then m / k + 1 else m / k := by
  have hm := Nat.div_add_mod m k
  have hr : m % k < k := Nat.mod_lt _ hk
  set Q := m / k with hQ
  set R := m % k with hR
  obtain ⟨t, ht⟩ : ∃ t, k * Q = t := ⟨_, rfl⟩
  rw [ht] at hm
  by_cases hir : i < R
  · rw [if_pos hir]
    apply Nat.div_eq_of_lt_le
    · have e1 : (Q + 1) * k = t + k := by rw [← ht]; ring
      rw [e1]; omega
    · have e2 : (Q + 1 + 1) * k = t + k + k := by rw [← ht]; ring
      rw [e2]; omega
  · rw [if_neg hir]
    apply Nat.div_eq_of_lt_le
    · have e1 : Q * k = t := by rw [← ht]; ring
      rw [e1]; omega
    · have e2 : (Q + 1) * k = t + k := by rw [← ht]; ring
      rw [e2]; omega

theorem foldTestIndex_false_eq (m k i : ℕ) (idx : List ℕ) (hk : 0 < k) (hik : i < k) :
    foldTestIndex m k false idx i = List.range' i (sliceCount m i k) k := by
  have hsc := sliceCount_eq m k i hk hik
  simp only [foldTestIndex, Bool.false_eq_true, if_false]
  by_cases hir : i < m % k
  · rw [if_pos hir, range'_take, hsc, if_pos hir, min_self]
  · rw [if_neg hir, range'_take, hsc, if_neg hir, min_self]

theorem mem_foldTestIndex_false (m k i : ℕ) (idx : List ℕ) (hk : 0 < k) (hik : i < k)
    (x : ℕ) : x ∈ foldTestIndex m k false idx i ↔ x < m ∧ x % k = i := by
  rw [foldTestIndex_false_eq m k i idx hk hik, List.mem_range']
  have hm := Nat.div_add_mod m k
  have hr : m % k < k := Nat.mod_lt _ hk
  have hsc := sliceCount_eq m k i hk hik
  set Q := m / k with hQ
  set R := m % k with hR
  obtain ⟨t, ht⟩ : ∃ t, k * Q = t := ⟨_, rfl⟩
  rw [ht] at hm
  constructor
  · rintro ⟨j, hj, rfl⟩
    constructor
    · obtain ⟨u, hu⟩ : ∃ u, k * j = u := ⟨_, rfl⟩
      rw [hu]
      by_cases hir : i < R
      · rw [hsc, if_pos hir] at hj
        have hjQ : j ≤ Q := by omega
        have hut : u ≤ t := by rw [← hu, ← ht]; exact Nat.mul_le_mul_left k hjQ
        omega
      · rw [hsc, if_neg hir] at hj
        have hjQ : j + 1 ≤ Q := hj
        have hut : u + k ≤ t := by
          have h1 : k * (j + 1) ≤ k * Q := Nat.mul_le_mul_left k hjQ
          rw [Nat.mul_succ, hu, ht] at h1
          exact h1
        omega
    · rw [Nat.add_mul_mod_self_left, Nat.mod_eq_of_lt hik]
  · rintro ⟨hxm, hmod⟩
    refine ⟨x / k, ?_, ?_⟩
    · by_cases hir : i < R
      · rw [hsc, if_pos hir]
        have : x / k ≤ m / k := Nat.div_le_div_right (le_of_lt hxm)
        omega
      · rw [hsc, if_neg hir]
        by_contra hcon
        have hjQ : Q ≤ x / k := by omega
        have h1 : k * Q ≤ k * (x / k) := Nat.mul_le_mul_left k hjQ
        have h2 := Nat.mod_add_div x k
        rw [hmod] at h2
        obtain ⟨u, hu⟩ : ∃ u, k * (x / k) = u := ⟨_, rfl⟩
        rw [hu] at h1 h2
        omega
    · have h2 := Nat.mod_add_div x k
      rw [hmod] at h2
      omega

theorem length_foldTestIndex_false (m k i : ℕ) (idx : List ℕ) (hk : 0 < k) (hik : i < k) :
    (foldTestIndex m k false idx i).length = if i < m % k then m / k + 1 else m / k := by
  rw [foldTestIndex_false_eq m k i idx hk hik, List.length_range',
    sliceCount_eq m k i hk hik]

theorem nodup_foldTestIndex_false (m k i : ℕ) (idx : List ℕ) (hk : 0 < k) (hik : i < k) :
    (foldTestIndex m k false idx i).Nodup := by
  rw [foldTestIndex_false_eq m k i idx hk hik]
  exact List.nodup_range' i (sliceCount m i k) k hk

theorem length_foldTestIndex_true (m k i : ℕ) (idx : List ℕ) (hk : 0 < k) (hik : i < k)
    (hlen : idx.length = m) :
    (foldTestIndex m k true idx i).length = if i < m % k then m / k + 1 else m / k := by
  have hm := Nat.div_add_mod m k
  have hr : m % k < k := Nat.mod_lt _ hk
  simp only [foldTestIndex, if_true]
  by_cases hir : i < m % k
  · rw [if_pos hir, if_pos hir, List.length_take, List.length_drop, hlen]
    have hle : i * (m / k + 1) + (m / k + 1) ≤ m := by
      calc i * (m / k + 1) + (m / k + 1) = (i + 1) * (m / k + 1) := by ring
        _ ≤ (m % k) * (m / k + 1) := Nat.mul_le_mul_right _ hir
        _ = (m % k) * (m / k) + m % k := by ring
        _ ≤ k * (m / k) + m % k :=
            Nat.add_le_add_right (Nat.mul_le_mul_right _ (le_of_lt hr)) _
        _ = m := hm
    omega
  · rw [if_neg hir, if_neg hir, List.length_take, List.length_drop, hlen]
    have hle : i * (m / k) + m % k + m / k ≤ m := by
      calc i * (m / k) + m % k + m / k = (i + 1) * (m / k) + m % k := by ring
        _ ≤ k * (m / k) + m % k := Nat.add_le_add_right (Nat.mul_le_mul_right _ hik) _
        _ = m := hm
    omega

theorem filter_not_mem_append_perm (m : ℕ) (t : List ℕ) (ht : t.Nodup)
    (hsub : ∀ x ∈ t, x < m) :
    ((List.range m).filter (fun x => decide (x ∉ t)) ++ t).Perm (List.range m) := by
  have h1 : ((List.range m).filter (fun x => decide (x ∈ t))).Perm t := by
    apply (List.perm_ext_iff_of_nodup (List.Nodup.filter _ (List.nodup_range m)) ht).mpr
    intro a
    simp only [List.mem_filter, List.mem_range, decide_eq_true_eq]
    exact ⟨fun h => h.2, fun h => ⟨hsub a h, h⟩⟩
  have h2 : ((List.range m).filter (fun x => decide (x ∉ t))
      ++ (List.range m).filter (fun x => decide (x ∈ t))).Perm (List.range m) := by
    have he : (fun x : ℕ => decide (x ∉ t)) = (fun x => !decide (x ∈ t)) := by
      funext x; simp [decide_not]
    have h3 := List.filter_append_perm (fun x => decide (x ∈ t)) (List.range m)
    rw [← he] at h3
    exact List.perm_append_comm.trans h3
  exact (List.Perm.append_left _ h1.symm).trans h2

theorem take_drop_seg_perm (l : List ℕ) (a len : ℕ) :
    ((l.take a ++ l.drop (a + len)) ++ (l.drop a).take len).Perm l := by
  have h2 : l = (l.take a ++ (l.drop a).take len) ++ l.drop (a + len) := by
    rw [← List.take_add, List.take_append_drop]
  conv_rhs => rw [h2]
  rw [List.append_assoc, List.append_assoc]
  exact List.Perm.append_left _ List.perm_append_comm

theorem fold_perm (m k i : ℕ) (random : Bool) (idx : List ℕ) (hk : 0 < k) (hik : i < k)
    (hidx : idx.Perm (List.range m)) :
    (foldTrainIndex m k random idx i ++ foldTestIndex m k random idx i).Perm
      (List.range m) := by
  cases random with
  | false =>
    simp only [foldTrainIndex, Bool.false_eq_true, if_false]
    exact filter_not_mem_append_perm m _ (nodup_foldTestIndex_false m k i idx hk hik)
      (fun x hx => ((mem_foldTestIndex_false m k i idx hk hik x).mp hx).1)
  | true =>
    simp only [foldTrainIndex, foldTestIndex, if_true]
    by_cases hir : i < m % k
    · rw [if_pos hir, if_pos hir]
      have harr : (i + 1) * (m / k + 1) = i * (m / k + 1) + (m / k + 1) := by ring
      rw [harr]
      exact (take_drop_seg_perm idx _ _).trans hidx
    · rw [if_neg hir, if_neg hir]
      have harr : (i + 1) * (m / k) + m % k = (i * (m / k) + m % k) + m / k := by ring
      rw [harr]
      exact (take_drop_seg_perm idx _ _).trans hidx

theorem fold_length_sum (m k i : ℕ) (random : Bool) (idx : List ℕ) (hk : 0 < k)
    (hik : i < k) (hidx : idx.Perm (List.range m)) :
    (foldTrainIndex m k random idx i).length + (foldTestIndex m k random idx i).length
      = m := by
  have h := (fold_perm m k i random idx hk hik hidx).length_eq
  simpa using h

theorem length_foldTestIndex (m k i : ℕ) (random : Bool) (idx : List ℕ) (hk : 0 < k)
    (hik : i < k) (hlen : idx.length = m) :
    (foldTestIndex m k random idx i).length = if i < m % k then m / k + 1 else m / k := by
  cases random with
  | false => exact length_foldTestIndex_false m k i idx hk hik
  | true => exact length_foldTestIndex_true m k i idx hk hik hlen

theorem matScalarDiv_matScalarMul (A : List (List ℚ)) (c : ℚ) (hc : c ≠ 0) :
    matScalarDiv (matScalarMul A c) c = A := by
  unfold matScalarDiv matScalarMul
  rw [List.map_map]
  have h : ((fun r : List ℚ => r.map (fun x => x / c)) ∘ fun r : List ℚ =>
      r.map (fun x => x * c)) = fun r : List ℚ => r := by
    funext r
    simp only [Function.comp_apply, List.map_map]
    have h2 : ((fun x : ℚ => x / c) ∘ fun x : ℚ => x * c) = fun x : ℚ => x := by
      funext x
      simp [mul_div_cancel_right₀ x hc]
    rw [h2, List.map_id']
  rw [h, List.map_id']

/-! ### Claim theorems -/

/-- C3: for every sample count `m`, fold count `k ≥ 2` and fold `i < k`, with or
without randomization (the shuffled index array being an arbitrary permutation
of `arange(m)`), the train and test index lists produced by `test_train_set`
for that fold are disjoint, their concatenation is a permutation of the full
index set `{0, …, m−1}`, and it carries no duplicate membership. -/
theorem foldSplitter_partition (m k i : ℕ) (random : Bool) (idx : List ℕ)
    (hk : 2 ≤ k) (hik : i < k) (hidx : idx.Perm (List.range m)) :
    (foldTrainIndex m k random idx i).Disjoint (foldTestIndex m k random idx i) ∧
    (foldTrainIndex m k random idx i ++ foldTestIndex m k random idx i).Perm
      (List.range m) ∧
    (foldTrainIndex m k random idx i ++ foldTestIndex m k random idx i).Nodup := by
  have hk0 : 0 < k := by omega
  have hp := fold_perm m k i random idx hk0 hik hidx
  have hnd : (foldTrainIndex m k random idx i ++ foldTestIndex m k random idx i).Nodup :=
    (hp.nodup_iff).mpr (List.nodup_range m)
  exact ⟨(List.nodup_append.mp hnd).2.2, hp, hnd⟩

/-- Witness for C3 at `m = 5`, `k = 3`, fold `i = 1`, randomized with the
shuffled index array `[3, 0, 4, 1, 2]`. -/
theorem foldSplitter_partition_witness :
    (2 ≤ 3 ∧ (1 : ℕ) < 3 ∧ ([3, 0, 4, 1, 2] : List ℕ).Perm (List.range 5)) ∧
    ((foldTrainIndex 5 3 true [3, 0, 4, 1, 2] 1).Disjoint
      (foldTestIndex 5 3 true [3, 0, 4, 1, 2] 1) ∧
    (foldTrainIndex 5 3 true [3, 0, 4, 1, 2] 1 ++
      foldTestIndex 5 3 true [3, 0, 4, 1, 2] 1).Perm (List.range 5) ∧
    (foldTrainIndex 5 3 true [3, 0, 4, 1, 2] 1 ++
      foldTestIndex 5 3 true [3, 0, 4, 1, 2] 1).Nodup) :=
  ⟨⟨by decide, by decide, by decide⟩,
    foldSplitter_partition 5 3 1 true [3, 0, 4, 1, 2] (by decide) (by decide) (by decide)⟩

/-- C8: in non-randomized mode `test_train_set` puts sample index `x` in the
test set of fold `i` exactly when `x % k = i` (striding, order preserved by
construction), and in both modes the first `m % k` folds have test size
`⌊m/k⌋ + 1` while the remaining folds have test size `⌊m/k⌋`. -/
theorem foldSplitter_stride_sizes (m k i : ℕ) (idx : List ℕ) (hk : 2 ≤ k)
    (hik : i < k) (hlen : idx.length = m) :
    (∀ x, x ∈ foldTestIndex m k false idx i ↔ x < m ∧ x % k = i) ∧
    (foldTestIndex m k false idx i).length = (if i < m % k then m / k + 1 else m / k) ∧
    (foldTestIndex m k true idx i).length = (if i < m % k then m / k + 1 else m / k) := by
  have hk0 : 0 < k := by omega
  exact ⟨mem_foldTestIndex_false m k i idx hk0 hik,
    length_foldTestIndex_false m k i idx hk0 hik,
    length_foldTestIndex_true m k i idx hk0 hik hlen⟩

/-- Witness for C8 at `m = 7`, `k = 3`, fold `i = 0`, index array
`[0, 1, 2, 3, 4, 5, 6]`. -/
theorem foldSplitter_stride_sizes_witness :
    (2 ≤ 3 ∧ (0 : ℕ) < 3 ∧ ([0, 1, 2, 3, 4, 5, 6] : List ℕ).length = 7) ∧
    ((∀ x, x ∈ foldTestIndex 7 3 false [0, 1, 2, 3, 4, 5, 6] 0 ↔ x < 7 ∧ x % 3 = 0) ∧
    (foldTestIndex 7 3 false [0, 1, 2, 3, 4, 5, 6] 0).length
      = (if 0 < 7 % 3 then 7 / 3 + 1 else 7 / 3) ∧
    (foldTestIndex 7 3 true [0, 1, 2, 3, 4, 5, 6] 0).length
      = (if 0 < 7 % 3 then 7 / 3 + 1 else 7 / 3)) :=
  ⟨⟨by decide, by decide, by decide⟩,
    foldSplitter_stride_sizes 7 3 0 [0, 1, 2, 3, 4, 5, 6] (by decide) (by decide) (by decide)⟩

/-- C7: `predict` and `residuals`, on both `LassoFista` and `LassoFistaCV`,
invoked before any successful `fit`, are rejected immediately for every kernel
and signal argument; the rejection is the `AttributeError` raised by accessing
the never-assigned attribute (`self.f` resp. `self.opt`). -/
theorem predict_residuals_before_fit (K : List (List ℚ)) (s : NDArr) :
    predictSt lassoFistaNew K = .error (.attributeError "f") ∧
    residualsSt lassoFistaNew K s = .error (.attributeError "f") ∧
    cvPredictSt lassoFistaCVNew K = .error (.attributeError "opt") ∧
    cvResidualsSt lassoFistaCVNew K s = .error (.attributeError "opt") :=
  ⟨rfl, rfl, rfl, rfl⟩

/-- C4 (failing input): after a fit storing `f = [[1]]` with kernel
`K = [[2], [3]]`, calling `residuals` with the conforming 2-D single-column
signal `s = [[5], [7]]` returns the 2×2 matrix `[[3, 2], [5, 4]]` — produced
by `np.squeeze` turning the prediction into a 1-D array that broadcasting
subtracts rowwise — and not the promised `s − K·f = [[3], [4]]`. -/
theorem residuals_squeeze_broadcast_bug :
    residualsArr [[2], [3]] [[1]] (.two [[5], [7]]) = some (.two [[3, 2], [5, 4]]) ∧
    matSub [[5], [7]] (matMul [[2], [3]] [[1]]) = [[3], [4]] ∧
    residualsArr [[2], [3]] [[1]] (.two [[5], [7]])
      ≠ some (.two (matSub [[5], [7]] (matMul [[2], [3]] [[1]]))) := by
  have h1 : residualsArr [[2], [3]] [[1]] (.two [[5], [7]])
      = some (.two [[3, 2], [5, 4]]) := by
    norm_num [residualsArr, npSub, npSqueeze, subBC2, bcDim, matMul, dotl, colOf,
      row0len, List.range_succ]
  have h2 : matSub [[5], [7]] (matMul [[2], [3]] [[1]]) = [[3], [4]] := by
    norm_num [matSub, matMul, dotl, colOf, row0len, List.range_succ]
  refine ⟨h1, h2, ?_⟩
  rw [h1, h2]
  simp

/-- C6 (counterexample): on the zero kernel the largest singular value is 0,
so the Lipschitz constant is numerically zero, yet `LassoFista.fit` completes
without signaling any error: it forms `1 / L` anyway and invokes the solver
(the solver here returns the received step size, showing it was called). -/
theorem lassoFista_fit_zero_lipschitz_no_error :
    (envZero.svdMax [[(0 : ℚ)]]) ^ 2 = 0 ∧
    lassoFista_fit envZero 1 10 0 true [[(0 : ℚ)]] (.one [1])
      = .ok { scale := 1, f := [[0]] } := by
  constructor
  · norm_num [envZero]
  · norm_num [lassoFista_fit, lassoFista_run, envZero, to2d, frobSq,
      matScalarDiv, matScalarMul]

/-- C6 (amended): `LassoFista.fit` performs no degeneracy check at all: for
every kernel — a zero Lipschitz constant included — it returns successfully,
forming the reciprocal of the Lipschitz constant `(svdMax K)²` unconditionally
and passing it to the solver. -/
theorem lassoFista_fit_no_degenerate_check (env : Extern) (lambda1 : ℚ)
    (maxIterations : ℕ) (tolerance : ℚ) (positive : Bool) (K : List (List ℚ))
    (s : NDArr) :
    lassoFista_fit env lambda1 maxIterations tolerance positive K s =
      .ok { scale := env.sqrtFn (frobSq (to2d s)),
            f := matScalarMul
              (env.fistaSolve K (matScalarDiv (to2d s) (env.sqrtFn (frobSq (to2d s))))
                lambda1 maxIterations positive (1 / (env.svdMax K) ^ 2) tolerance)
              (env.sqrtFn (frobSq (to2d s))) } := rfl

/-- C5 (counterexample): a configuration with fold count 1 (< 2), a negative
λ in the grid, and an iteration cap of 0 is accepted by `LassoFistaCV.fit`,
which runs to completion instead of rejecting it. -/
theorem lassoFistaCV_fit_accepts_invalid_config :
    (lassoFistaCV_fit envId [-1] 1 0 0 0 true false 1 (fun _ => [0]) [[1]]
      (.one [1])).isOk = true := by
  simp [lassoFistaCV_fit, Except.isOk, Except.toBool]

/-- C5 (amended): `LassoFistaCV.fit` performs no configuration validation
and rejects nothing before computation starts: a fold count of 1 (< 2), a
fold count larger than the sample count, a negative λ in the grid, and an
iteration cap of 0 are all accepted and the fit runs to completion.  The fit
fails only when the fold count is 0 — a `ZeroDivisionError` raised by the
integer division inside `test_train_set`, after the SVD — or when the λ grid
is empty — a `ValueError` raised at the argmin selection step, after the
cross-validation computation; it succeeds exactly when the fold count is
nonzero and the λ grid is nonempty. -/
theorem lassoFistaCV_fit_no_config_validation (env : Extern) (lambdas : List ℚ)
    (folds maxIterations : ℕ) (tolerance sigma : ℚ) (positive randomize : Bool)
    (times : ℕ) (idxs : ℕ → List ℕ) (K : List (List ℚ)) (s : NDArr) :
    (∃ r, lassoFistaCV_fit env lambdas folds maxIterations tolerance sigma positive
      randomize times idxs K s = .ok r) ↔ (folds ≠ 0 ∧ lambdas ≠ []) := by
  constructor
  · rintro ⟨r, hr⟩
    constructor
    · intro h0
      rw [h0] at hr
      simp [lassoFistaCV_fit] at hr
    · intro hnil
      rw [hnil] at hr
      by_cases h0 : folds = 0
      · rw [h0] at hr
        simp [lassoFistaCV_fit] at hr
      · simp [lassoFistaCV_fit, h0] at hr
  · rintro ⟨h0, hnil⟩
    exact ⟨lassoFistaCV_run env lambdas folds maxIterations tolerance sigma positive
      randomize times idxs K s, by simp [lassoFistaCV_fit, h0, hnil]⟩

/-- C2: `LassoFista.fit` stores the L2 norm of the signal as the scale,
divides the signal by it before invoking the solver, and multiplies the
solver output by the same scale, so that (for a nonzero scale) dividing the
stored solution by the scale recovers exactly the normalized-unit
output of the solver. -/
theorem lassoFista_fit_rescales (env : Extern) (lambda1 : ℚ) (maxIterations : ℕ)
    (tolerance : ℚ) (positive : Bool) (K : List (List ℚ)) (s : NDArr) :
    (lassoFista_run env lambda1 maxIterations tolerance positive K s).scale
        = env.sqrtFn (frobSq (to2d s)) ∧
    (lassoFista_run env lambda1 maxIterations tolerance positive K s).f
        = matScalarMul
            (env.fistaSolve K (matScalarDiv (to2d s) (env.sqrtFn (frobSq (to2d s))))
              lambda1 maxIterations positive (1 / (env.svdMax K) ^ 2) tolerance)
            (env.sqrtFn (frobSq (to2d s))) ∧
    (env.sqrtFn (frobSq (to2d s)) ≠ 0 →
      matScalarDiv ((lassoFista_run env lambda1 maxIterations tolerance positive K s).f)
          (env.sqrtFn (frobSq (to2d s)))
        = env.fistaSolve K (matScalarDiv (to2d s) (env.sqrtFn (frobSq (to2d s))))
            lambda1 maxIterations positive (1 / (env.svdMax K) ^ 2) tolerance) :=
  ⟨rfl, rfl, fun hc => matScalarDiv_matScalarMul _ _ hc⟩

/-- Witness for C2 at a concrete fit: signal `[3, 4]` has squared norm 25, so
the scale is nonzero and dividing the stored solution by it recovers the
solver output. -/
theorem lassoFista_fit_rescales_witness :
    envId.sqrtFn (frobSq (to2d (.one [3, 4]))) ≠ 0 ∧
    matScalarDiv ((lassoFista_run envId 1 5 0 true [[1, 0]] (.one [3, 4])).f)
        (envId.sqrtFn (frobSq (to2d (.one [3, 4]))))
      = envId.fistaSolve [[1, 0]]
          (matScalarDiv (to2d (.one [3, 4])) (envId.sqrtFn (frobSq (to2d (.one [3, 4])))))
          1 5 true (1 / (envId.svdMax [[1, 0]]) ^ 2) 0 :=
  ⟨by norm_num [envId, to2d, frobSq],
    (lassoFista_fit_rescales envId 1 5 0 true [[1, 0]] (.one [3, 4])).2.2
      (by norm_num [envId, to2d, frobSq])⟩

theorem length_cvAbs (env : Extern) (lambdas : List ℚ) (folds maxIterations : ℕ)
    (tolerance sigma : ℚ) (positive randomize : Bool) (times : ℕ)
    (idxs : ℕ → List ℕ) (K : List (List ℚ)) (s : NDArr) :
    (lassoFistaCV_run env lambdas folds maxIterations tolerance sigma positive
      randomize times idxs K s).cvAbs.length = lambdas.length := by
  simp [lassoFistaCV_run, fistaCVMap]

/-- C1: on a nonempty λ grid, `LassoFistaCV.fit` succeeds and the result
satisfies: the stored CV curve is the per-λ mean squared prediction error map
(`fistaCVMap`, modelled from the spec for the compiled `fista_cv` routine)
with `σ²` subtracted and the absolute value applied; the selected λ is the
grid entry at the argmin of that corrected map (a hard minimum: it is ≤ every
other entry); and the stored solution `f` is the full-data single-λ
`LassoFista` fit at the selected λ.  A nonzero fold count is required, since
a zero fold count makes the real fit raise `ZeroDivisionError` inside
`test_train_set` before reaching the selection step. -/
theorem lassoFistaCV_fit_selection (env : Extern) (lambdas : List ℚ)
    (folds maxIterations : ℕ) (tolerance sigma : ℚ) (positive randomize : Bool)
    (times : ℕ) (idxs : ℕ → List ℕ) (K : List (List ℚ)) (s : NDArr)
    (hf : folds ≠ 0) (h : lambdas ≠ []) :
    ∃ r, lassoFistaCV_fit env lambdas folds maxIterations tolerance sigma positive
        randomize times idxs K s = .ok r ∧
      r.cvAbs = (fistaCVMap env.fistaSolve
          (test_train_set K (matScalarDiv (to2d s) (env.sqrtFn (frobSq (to2d s))))
            folds randomize times idxs).k_train
          (test_train_set K (matScalarDiv (to2d s) (env.sqrtFn (frobSq (to2d s))))
            folds randomize times idxs).s_train
          (test_train_set K (matScalarDiv (to2d s) (env.sqrtFn (frobSq (to2d s))))
            folds randomize times idxs).k_test
          (test_train_set K (matScalarDiv (to2d s) (env.sqrtFn (frobSq (to2d s))))
            folds randomize times idxs).s_test
          (folds * times) lambdas maxIterations positive
          (1 / (env.svdMax K) ^ 2) tolerance).map (fun e => |e - sigma ^ 2|) ∧
      argminIdx r.cvAbs < lambdas.length ∧
      r.lambdaSel = lambdas.getD (argminIdx r.cvAbs) 0 ∧
      (∀ j, j < r.cvAbs.length →
        r.cvAbs.getD (argminIdx r.cvAbs) 0 ≤ r.cvAbs.getD j 0) ∧
      r.f = (lassoFista_run env r.lambdaSel maxIterations tolerance positive K s).f := by
  refine ⟨lassoFistaCV_run env lambdas folds maxIterations tolerance sigma positive
      randomize times idxs K s, ?_, rfl, ?_, rfl, ?_, rfl⟩
  · simp [lassoFistaCV_fit, hf, h]
  · have h2 := length_cvAbs env lambdas folds maxIterations tolerance sigma positive
      randomize times idxs K s
    have h0 : 0 < lambdas.length := List.length_pos.mpr h
    have hne : (lassoFistaCV_run env lambdas folds maxIterations tolerance sigma
        positive randomize times idxs K s).cvAbs ≠ [] := by
      intro hc
      rw [hc] at h2
      simp at h2
      omega
    have h1 := argminIdx_lt_length _ hne
    omega
  · intro j hj
    exact argminIdx_min _ j hj

/-- Witness for C1 at a concrete cross-validated fit (grid `[1, 2]`, two
folds, identity kernel, signal `[1, 2]`). -/
theorem lassoFistaCV_fit_selection_witness :
    ((2 : ℕ) ≠ 0 ∧ ([1, 2] : List ℚ) ≠ []) ∧
    ∃ r, lassoFistaCV_fit envId [1, 2] 2 3 0 0 true false 1 idxsW2
        [[1, 0], [0, 1]] (.one [1, 2]) = .ok r ∧
      r.cvAbs = (fistaCVMap envId.fistaSolve
          (test_train_set [[1, 0], [0, 1]]
            (matScalarDiv (to2d (.one [1, 2]))
              (envId.sqrtFn (frobSq (to2d (.one [1, 2])))))
            2 false 1 idxsW2).k_train
          (test_train_set [[1, 0], [0, 1]]
            (matScalarDiv (to2d (.one [1, 2]))
              (envId.sqrtFn (frobSq (to2d (.one [1, 2])))))
            2 false 1 idxsW2).s_train
          (test_train_set [[1, 0], [0, 1]]
            (matScalarDiv (to2d (.one [1, 2]))
              (envId.sqrtFn (frobSq (to2d (.one [1, 2])))))
            2 false 1 idxsW2).k_test
          (test_train_set [[1, 0], [0, 1]]
            (matScalarDiv (to2d (.one [1, 2]))
              (envId.sqrtFn (frobSq (to2d (.one [1, 2])))))
            2 false 1 idxsW2).s_test
          (2 * 1) [1, 2] 3 true
          (1 / (envId.svdMax [[1, 0], [0, 1]]) ^ 2) 0).map (fun e => |e - 0 ^ 2|) ∧
      argminIdx r.cvAbs < ([1, 2] : List ℚ).length ∧
      r.lambdaSel = ([1, 2] : List ℚ).getD (argminIdx r.cvAbs) 0 ∧
      (∀ j, j < r.cvAbs.length →
        r.cvAbs.getD (argminIdx r.cvAbs) 0 ≤ r.cvAbs.getD j 0) ∧
      r.f = (lassoFista_run envId r.lambdaSel 3 0 true [[1, 0], [0, 1]]
        (.one [1, 2])).f :=
  ⟨⟨by decide, by decide⟩,
    lassoFistaCV_fit_selection envId [1, 2] 2 3 0 0 true false 1 idxsW2
      [[1, 0], [0, 1]] (.one [1, 2]) (by decide) (by decide)⟩

theorem fillTensor_entry_pad (M : List (List ℚ)) (d0 d1 ns : ℕ) (ind : ℕ → List ℕ)
    (a b t : ℕ) (ha : (ind t).length ≤ a) :
    (fillTensor M d0 d1 ns ind).entry a b t = 0 := by
  have hcon : ¬(a < (ind t).length ∧ a < d0 ∧ b < d1 ∧ t < ns) := by
    intro hcon
    exact absurd hcon.1 (not_lt.mpr ha)
  simp only [fillTensor]
  exact if_neg hcon

/-- C9: the four tensors returned by `test_train_set` stack all folds/repeats
along a trailing axis of length `folds × repeats`; the train tensors have
`m − ⌊m/k⌋` leading rows and the test tensors `⌊m/k⌋ + 1`; the test
size of each fold is `⌊m/k⌋` or `⌊m/k⌋ + 1` (sizes differ by at most one) and its train
size is the complement `m − test size`; rows past the index count of a fold
are left as zero padding in all four tensors. -/
theorem test_train_set_stacking (X y : List (List ℚ)) (folds times : ℕ)
    (random : Bool) (idxs : ℕ → List ℕ) (hf : 2 ≤ folds)
    (hperm : ∀ j, (idxs j).Perm (List.range X.length)) :
    ((test_train_set X y folds random times idxs).k_train.d2 = folds * times ∧
     (test_train_set X y folds random times idxs).s_train.d2 = folds * times ∧
     (test_train_set X y folds random times idxs).k_test.d2 = folds * times ∧
     (test_train_set X y folds random times idxs).s_test.d2 = folds * times) ∧
    ((test_train_set X y folds random times idxs).k_train.d0
        = X.length - X.length / folds ∧
     (test_train_set X y folds random times idxs).s_train.d0
        = X.length - X.length / folds ∧
     (test_train_set X y folds random times idxs).k_test.d0 = X.length / folds + 1 ∧
     (test_train_set X y folds random times idxs).s_test.d0 = X.length / folds + 1) ∧
    (∀ t,
      ((foldTestIndex X.length folds random (idxs (t / folds)) (t % folds)).length
          = X.length / folds ∨
       (foldTestIndex X.length folds random (idxs (t / folds)) (t % folds)).length
          = X.length / folds + 1) ∧
      (foldTrainIndex X.length folds random (idxs (t / folds)) (t % folds)).length +
        (foldTestIndex X.length folds random (idxs (t / folds)) (t % folds)).length
          = X.length) ∧
    (∀ a b t,
      (foldTestIndex X.length folds random (idxs (t / folds)) (t % folds)).length ≤ a →
      (test_train_set X y folds random times idxs).k_test.entry a b t = 0 ∧
      (test_train_set X y folds random times idxs).s_test.entry a b t = 0) ∧
    (∀ a b t,
      (foldTrainIndex X.length folds random (idxs (t / folds)) (t % folds)).length ≤ a →
      (test_train_set X y folds random times idxs).k_train.entry a b t = 0 ∧
      (test_train_set X y folds random times idxs).s_train.entry a b t = 0) := by
  have hk0 : 0 < folds := by omega
  refine ⟨⟨rfl, rfl, rfl, rfl⟩, ⟨rfl, rfl, rfl, rfl⟩, ?_, ?_, ?_⟩
  · intro t
    have hik : t % folds < folds := Nat.mod_lt _ hk0
    have hlen : (idxs (t / folds)).length = X.length := by
      have := (hperm (t / folds)).length_eq
      simpa using this
    constructor
    · have hl := length_foldTestIndex X.length folds (t % folds) random
        (idxs (t / folds)) hk0 hik hlen
      by_cases hc : t % folds < X.length % folds
      · right; rw [hl, if_pos hc]
      · left; rw [hl, if_neg hc]
    · exact fold_length_sum X.length folds (t % folds) random (idxs (t / folds))
        hk0 hik (hperm (t / folds))
  · intro a b t ha
    exact ⟨fillTensor_entry_pad _ _ _ _ _ a b t ha, fillTensor_entry_pad _ _ _ _ _ a b t ha⟩
  · intro a b t ha
    exact ⟨fillTensor_entry_pad _ _ _ _ _ a b t ha, fillTensor_entry_pad _ _ _ _ _ a b t ha⟩

/-- Witness for C9 at `X = y = [[1], [2], [3]]`, two folds, one repeat,
non-randomized. -/
theorem test_train_set_stacking_witness :
    (2 ≤ 2 ∧ ∀ j, (idxsW j).Perm (List.range Xw.length)) ∧
    (((test_train_set Xw Xw 2 false 1 idxsW).k_train.d2 = 2 * 1 ∧
      (test_train_set Xw Xw 2 false 1 idxsW).s_train.d2 = 2 * 1 ∧
      (test_train_set Xw Xw 2 false 1 idxsW).k_test.d2 = 2 * 1 ∧
      (test_train_set Xw Xw 2 false 1 idxsW).s_test.d2 = 2 * 1) ∧
     ((test_train_set Xw Xw 2 false 1 idxsW).k_train.d0
         = Xw.length - Xw.length / 2 ∧
      (test_train_set Xw Xw 2 false 1 idxsW).s_train.d0
         = Xw.length - Xw.length / 2 ∧
      (test_train_set Xw Xw 2 false 1 idxsW).k_test.d0 = Xw.length / 2 + 1 ∧
      (test_train_set Xw Xw 2 false 1 idxsW).s_test.d0 = Xw.length / 2 + 1) ∧
     (∀ t,
       ((foldTestIndex Xw.length 2 false (idxsW (t / 2)) (t % 2)).length
           = Xw.length / 2 ∨
        (foldTestIndex Xw.length 2 false (idxsW (t / 2)) (t % 2)).length
           = Xw.length / 2 + 1) ∧
       (foldTrainIndex Xw.length 2 false (idxsW (t / 2)) (t % 2)).length +
         (foldTestIndex Xw.length 2 false (idxsW (t / 2)) (t % 2)).length
           = Xw.length) ∧
     (∀ a b t,
       (foldTestIndex Xw.length 2 false (idxsW (t / 2)) (t % 2)).length ≤ a →
       (test_train_set Xw Xw 2 false 1 idxsW).k_test.entry a b t = 0 ∧
       (test_train_set Xw Xw 2 false 1 idxsW).s_test.entry a b t = 0) ∧
     (∀ a b t,
       (foldTrainIndex Xw.length 2 false (idxsW (t / 2)) (t % 2)).length ≤ a →
       (test_train_set Xw Xw 2 false 1 idxsW).k_train.entry a b t = 0 ∧
       (test_train_set Xw Xw 2 false 1 idxsW).s_train.entry a b t = 0)) :=
  ⟨⟨by decide, fun j => by
      change ([0, 1, 2] : List ℕ).Perm (List.range 3)
      decide⟩,
    test_train_set_stacking Xw Xw 2 1 false idxsW (by decide) (fun j => by
      change ([0, 1, 2] : List ℕ).Perm (List.range 3)
      decide)⟩

/-- C10: for every `m` and fold count `k`, the test tensors are allocated
with exactly `⌊m/k⌋ + 1` leading rows regardless of divisibility; when
`k ∣ m`, the test index list of every fold has exactly `⌊m/k⌋` entries, the final
allocated test row is zero padding in every fold, and the returned remainder
is 0. -/
theorem test_train_set_test_allocation (X y : List (List ℚ)) (folds times : ℕ)
    (random : Bool) (idxs : ℕ → List ℕ) (hf : 2 ≤ folds)
    (hperm : ∀ j, (idxs j).Perm (List.range X.length)) :
    (test_train_set X y folds random times idxs).k_test.d0 = X.length / folds + 1 ∧
    (test_train_set X y folds random times idxs).s_test.d0 = X.length / folds + 1 ∧
    (folds ∣ X.length →
      (test_train_set X y folds random times idxs).m = 0 ∧
      (∀ t, (foldTestIndex X.length folds random (idxs (t / folds)) (t % folds)).length
          = X.length / folds) ∧
      (∀ b t, (test_train_set X y folds random times idxs).k_test.entry
          (X.length / folds) b t = 0 ∧
        (test_train_set X y folds random times idxs).s_test.entry
          (X.length / folds) b t = 0)) := by
  have hk0 : 0 < folds := by omega
  refine ⟨rfl, rfl, fun hdvd => ?_⟩
  have hmod : X.length % folds = 0 := Nat.mod_eq_zero_of_dvd hdvd
  have hlenfold : ∀ t,
      (foldTestIndex X.length folds random (idxs (t / folds)) (t % folds)).length
        = X.length / folds := by
    intro t
    have hik : t % folds < folds := Nat.mod_lt _ hk0
    have hlen : (idxs (t / folds)).length = X.length := by
      have := (hperm (t / folds)).length_eq
      simpa using this
    have hl := length_foldTestIndex X.length folds (t % folds) random
      (idxs (t / folds)) hk0 hik hlen
    rw [hl, hmod]
    simp
  refine ⟨hmod, hlenfold, ?_⟩
  intro b t
  have ha : (foldTestIndex X.length folds random (idxs (t / folds)) (t % folds)).length
      ≤ X.length / folds := le_of_eq (hlenfold t)
  exact ⟨fillTensor_entry_pad _ _ _ _ _ _ b t ha, fillTensor_entry_pad _ _ _ _ _ _ b t ha⟩

/-- Witness for C10 at `X = y = [[1], [2], [3], [4]]`, two folds (2 divides
4), one repeat, non-randomized. -/
theorem test_train_set_test_allocation_witness :
    (2 ≤ 2 ∧ (∀ j, (idxsW4 j).Perm (List.range Xw4.length)) ∧ 2 ∣ Xw4.length) ∧
    ((test_train_set Xw4 Xw4 2 false 1 idxsW4).k_test.d0 = Xw4.length / 2 + 1 ∧
     (test_train_set Xw4 Xw4 2 false 1 idxsW4).s_test.d0 = Xw4.length / 2 + 1 ∧
     (2 ∣ Xw4.length →
       (test_train_set Xw4 Xw4 2 false 1 idxsW4).m = 0 ∧
       (∀ t, (foldTestIndex Xw4.length 2 false (idxsW4 (t / 2)) (t % 2)).length
           = Xw4.length / 2) ∧
       (∀ b t, (test_train_set Xw4 Xw4 2 false 1 idxsW4).k_test.entry
           (Xw4.length / 2) b t = 0 ∧
         (test_train_set Xw4 Xw4 2 false 1 idxsW4).s_test.entry
           (Xw4.length / 2) b t = 0))) :=
  ⟨⟨by decide, fun j => by
      change ([0, 1, 2, 3] : List ℕ).Perm (List.range 4)
      decide, by decide⟩,
    test_train_set_test_allocation Xw4 Xw4 2 1 false idxsW4 (by decide)
      (fun j => by
        change ([0, 1, 2, 3] : List ℕ).Perm (List.range 4)
        decide)⟩

end Mrinversion
